import Mathlib

/-!
Shallow embedding of the lead-generation service in `app.py`: the JSON
decoder (`json.loads` restricted to the constructs the service can meet),
the response extractor `extract_json_from_response` (its regex search and
first-brace/last-brace fallback), the pydantic models `Lead` / `LeadList`
with their field validation, and the `/generate-leads` request handler
`generate_leads`.  String-typed pydantic fields are modelled as accepting
exactly JSON strings (empty strings included) and rejecting every other
JSON value; `Optional` fields accept `null` and substitute their default
only when the key is absent.  The JSON string decoder rejects `\u` escapes
in the surrogate range (Python keeps lone surrogates); no statement below
depends on such inputs.
-/

/-- Characters the scanner treats specially, named so they can be used both
in patterns via equality tests and in assembled texts. -/
def tick : Char := Char.ofNat 96

def lbrace : Char := Char.ofNat 123

def rbrace : Char := Char.ofNat 125

/-- Generic decoded JSON value (the result of `json.loads`).  Numbers keep
their validated lexeme: no claim depends on numeric magnitude, only on a
value being or not being a string, and on zero-ness for truthiness. -/
inductive Json where
  | null : Json
  | bool (b : Bool) : Json
  | str (s : String) : Json
  | num (lexeme : String) : Json
  | arr (xs : List Json) : Json
  | obj (members : List (String × Json)) : Json

/-- Whitespace skipped by Python's `json` module (not the regex `\s`). -/
def jsonWs (c : Char) : Bool := c = ' ' || c = '\t' || c = '\n' || c = '\r'

def hexVal (c : Char) : Option Nat :=
  if '0' ≤ c ∧ c ≤ '9' then some (c.toNat - '0'.toNat)
  else if 'a' ≤ c ∧ c ≤ 'f' then some (c.toNat - 'a'.toNat + 10)
  else if 'A' ≤ c ∧ c ≤ 'F' then some (c.toNat - 'A'.toNat + 10)
  else none

def escChar (e : Char) : Option Char :=
  if e = '"' then some '"'
  else if e = '\\' then some '\\'
  else if e = '/' then some '/'
  else if e = 'b' then some (Char.ofNat 8)
  else if e = 'f' then some (Char.ofNat 12)
  else if e = 'n' then some '\n'
  else if e = 'r' then some '\r'
  else if e = 't' then some '\t'
  else none

/-- Decode the remainder of a JSON string literal (the opening quote is
already consumed); returns the decoded characters and the input after the
closing quote. -/
def parseStringRest : List Char → Option (List Char × List Char)
  | [] => none
  | c :: rest =>
    if c = '"' then some ([], rest)
    else if c = '\\' then
      match rest with
      | [] => none
      | e :: rest2 =>
        if e = 'u' then
          match rest2 with
          | h1 :: h2 :: h3 :: h4 :: rest3 =>
            match hexVal h1, hexVal h2, hexVal h3, hexVal h4 with
            | some a, some b, some c2, some d =>
              let n := ((a * 16 + b) * 16 + c2) * 16 + d
              if 55296 ≤ n ∧ n ≤ 57343 then none
              else (parseStringRest rest3).map (fun p => (Char.ofNat n :: p.1, p.2))
            | _, _, _, _ => none
          | _ => none
        else
          match escChar e with
          | some ch => (parseStringRest rest2).map (fun p => (ch :: p.1, p.2))
          | none => none
    else if c.toNat < 32 then none
    else (parseStringRest rest).map (fun p => (c :: p.1, p.2))

def takeDigits (cs : List Char) : List Char × List Char :=
  (cs.takeWhile Char.isDigit, cs.dropWhile Char.isDigit)

/-- Optional fraction part `.digits` of a JSON number. -/
def parseFrac (cs : List Char) : Option (List Char × List Char) :=
  match cs with
  | '.' :: r =>
    let p := takeDigits r
    if p.1 = [] then none else some ('.' :: p.1, p.2)
  | _ => some ([], cs)

/-- Optional exponent part `e[+-]digits` of a JSON number. -/
def parseExp (cs : List Char) : Option (List Char × List Char) :=
  match cs with
  | c :: r =>
    if c = 'e' ∨ c = 'E' then
      let sp : List Char × List Char :=
        match r with
        | d :: r2 => if d = '+' ∨ d = '-' then ([d], r2) else ([], r)
        | [] => ([], r)
      let p := takeDigits sp.2
      if p.1 = [] then none else some (c :: (sp.1 ++ p.1), p.2)
    else some ([], cs)
  | [] => some ([], cs)

/-- JSON number grammar: `-? int frac? exp?` with `int = 0 | [1-9][0-9]*`.
Returns the accepted lexeme and the remaining input. -/
def parseNumber (cs : List Char) : Option (List Char × List Char) :=
  let sp : List Char × List Char :=
    match cs with
    | c :: r => if c = '-' then ([c], r) else ([], cs)
    | [] => ([], cs)
  match sp.2 with
  | [] => none
  | c :: r =>
    if c = '0' then
      match parseFrac r with
      | none => none
      | some (f, r2) =>
        match parseExp r2 with
        | none => none
        | some (e, r3) => some (sp.1 ++ [c] ++ f ++ e, r3)
    else if c.isDigit then
      let dg := takeDigits (c :: r)
      match parseFrac dg.2 with
      | none => none
      | some (f, r2) =>
        match parseExp r2 with
        | none => none
        | some (e, r3) => some (sp.1 ++ dg.1 ++ f ++ e, r3)
    else none

mutual

/-- Recursive-descent JSON value parser with fuel, mirroring `json.loads`. -/
def parseJ : Nat → List Char → Option (Json × List Char)
  | 0, _ => none
  | Nat.succ f, cs =>
    match List.dropWhile jsonWs cs with
    | [] => none
    | c :: rest =>
      if c = lbrace then
        match List.dropWhile jsonWs rest with
        | [] => none
        | d :: rest2 =>
          if d = rbrace then some (.obj [], rest2)
          else parseMembers f (d :: rest2) []
      else if c = '[' then
        match List.dropWhile jsonWs rest with
        | [] => none
        | d :: rest2 =>
          if d = ']' then some (.arr [], rest2)
          else parseElems f (d :: rest2) []
      else if c = '"' then
        (parseStringRest rest).map (fun p => (.str (String.mk p.1), p.2))
      else if c = 't' then
        match rest with
        | 'r' :: 'u' :: 'e' :: r => some (.bool true, r)
        | _ => none
      else if c = 'f' then
        match rest with
        | 'a' :: 'l' :: 's' :: 'e' :: r => some (.bool false, r)
        | _ => none
      else if c = 'n' then
        match rest with
        | 'u' :: 'l' :: 'l' :: r => some (.null, r)
        | _ => none
      else if c = '-' ∨ c.isDigit then
        (parseNumber (c :: rest)).map (fun p => (.num (String.mk p.1), p.2))
      else none

/-- Members of a JSON object after `{` (input positioned at a key). -/
def parseMembers : Nat → List Char → List (String × Json) → Option (Json × List Char)
  | 0, _, _ => none
  | Nat.succ f, cs, acc =>
    match List.dropWhile jsonWs cs with
    | [] => none
    | c :: rest =>
      if c = '"' then
        match parseStringRest rest with
        | none => none
        | some (k, r1) =>
          match List.dropWhile jsonWs r1 with
          | ':' :: r2 =>
            match parseJ f r2 with
            | none => none
            | some (v, r3) =>
              match List.dropWhile jsonWs r3 with
              | [] => none
              | d :: r4 =>
                if d = ',' then parseMembers f r4 (acc ++ [(String.mk k, v)])
                else if d = rbrace then some (.obj (acc ++ [(String.mk k, v)]), r4)
                else none
          | _ => none
      else none

/-- Elements of a JSON array after `[` (input positioned at a value). -/
def parseElems : Nat → List Char → List Json → Option (Json × List Char)
  | 0, _, _ => none
  | Nat.succ f, cs, acc =>
    match parseJ f cs with
    | none => none
    | some (v, r1) =>
      match List.dropWhile jsonWs r1 with
      | [] => none
      | d :: r2 =>
        if d = ',' then parseElems f r2 (acc ++ [v])
        else if d = ']' then some (.arr (acc ++ [v]), r2)
        else none

end

/-- Model of `json.loads`: parse a complete document, allowing only trailing
whitespace after the value. -/
def parseJson (s : String) : Option Json :=
  match parseJ (2 * s.data.length + 2) s.data with
  | some (v, rest) => if List.dropWhile jsonWs rest = [] then some v else none
  | none => none

/-- Whitespace matched by `\s` in the extraction regex (ASCII part of
Python's `re` whitespace class). -/
def reWs (c : Char) : Bool :=
  c = ' ' || c = '\t' || c = '\n' || c = '\r' || c = Char.ofNat 11 || c = Char.ofNat 12

/-- Does the input begin with the three backticks that close a fenced
block? -/
def startsWithTicks (cs : List Char) : Bool :=
  match cs with
  | a :: b :: c :: _ => a = tick && b = tick && c = tick
  | _ => false

/-- The lazy body `[\s\S]*?\}` of the fenced-block regex followed by
`\s*` + three backticks: scan for the first closing brace whose following
whitespace run reaches the closing fence, returning the consumed content
(terminating brace included). -/
def lazyScan : List Char → Option (List Char)
  | [] => none
  | c :: rest =>
    if c = rbrace ∧ startsWithTicks (List.dropWhile reWs rest) = true then some [c]
    else (lazyScan rest).map (fun g => c :: g)

/-- The optional `(json)?` tag right after the opening fence. -/
def jsonTagStrip (cs : List Char) : List Char :=
  match cs with
  | 'j' :: 's' :: 'o' :: 'n' :: r => r
  | _ => cs

/-- Attempt the fenced-block pattern at the head of the input, returning
the capture group `\{[\s\S]*?\}` on success. -/
def matchAt (cs : List Char) : Option (List Char) :=
  match cs with
  | c1 :: c2 :: c3 :: rest =>
    if c1 = tick ∧ c2 = tick ∧ c3 = tick then
      match List.dropWhile reWs (jsonTagStrip rest) with
      | [] => none
      | c :: body => if c = lbrace then (lazyScan body).map (fun g => lbrace :: g) else none
    else none
  | _ => none

/-- Model of `re.search`: try the pattern at every position, leftmost first. -/
def regexSearch : List Char → Option (List Char)
  | [] => none
  | c :: rest =>
    match matchAt (c :: rest) with
    | some g => some g
    | none => regexSearch rest

/-- Python `str.find`: index of the first occurrence of a character. -/
def pyFindIdx : List Char → Char → Option Nat
  | [], _ => none
  | a :: rest, c =>
    if a = c then some 0 else (pyFindIdx rest c).map (fun i => i + 1)

/-- Python `str.rfind`: index of the last occurrence of a character. -/
def pyRFindIdx : List Char → Char → Option Nat
  | [], _ => none
  | a :: rest, c =>
    match pyRFindIdx rest c with
    | some i => some (i + 1)
    | none => if a = c then some 0 else none

/-- The candidate substring selected by `extract_json_from_response`
before decoding: fenced-block capture first, then the inclusive span from
the first `{` to the last `}`. -/
def extractCandidate (cs : List Char) : Option (List Char) :=
  match regexSearch cs with
  | some g => some g
  | none =>
    match pyFindIdx cs lbrace, pyRFindIdx cs rbrace with
    | some s, some e =>
      if s < e then some ((cs.drop s).take (e - s + 1)) else none
    | _, _ => none

/-- Model of `extract_json_from_response`: locate a candidate JSON substring and
decode it; `none` both when no candidate exists and when decoding fails. -/
def extract_json_from_response (text : String) : Option Json :=
  match extractCandidate text.data with
  | none => none
  | some g => parseJson (String.mk g)

/-- Pydantic model `Lead`.  `Optional[str]` fields are `Option String`
(`none` is Python `None`); their default when the key is absent is
`some "N/A"`. -/
structure Lead where
  name : String
  address : Option String
  phone : Option String
  website : Option String
  confidence_score : String
  source : String

/-- Pydantic model `LeadList`. -/
structure LeadList where
  leads : List Lead

/-- One step of a pydantic error location. -/
inductive PathStep where
  | key (k : String) : PathStep
  | idx (i : Nat) : PathStep

/-- Kind of a field-level validation failure. -/
inductive ErrKind where
  | missing : ErrKind
  | notString : ErrKind
  | notList : ErrKind
  | notDict : ErrKind

/-- One entry of `ValidationError.errors()`: a location path and what went
wrong there. -/
structure FieldError where
  loc : List PathStep
  kind : ErrKind

/-- Python dict lookup on decoded members (duplicate keys: last wins, as
in `json.loads`). -/
def getKey : List (String × Json) → String → Option Json
  | [], _ => none
  | p :: rest, k =>
    match getKey rest k with
    | some r => some r
    | none => if p.1 = k then some p.2 else none

/-- Validate a required `str` field: present with a string value (empty
allowed) or a field error. -/
def checkReqStr (em : List (String × Json)) (k : String) : List FieldError × Option String :=
  match getKey em k with
  | none => ([⟨[.key k], .missing⟩], none)
  | some (.str s) => ([], some s)
  | some _ => ([⟨[.key k], .notString⟩], none)

/-- Validate an `Optional[str]` field with default `N/A`: absent gives the
default, `null` gives `None`, a string gives itself, anything else a field
error. -/
def checkOptStr (em : List (String × Json)) (k : String) : List FieldError × Option (Option String) :=
  match getKey em k with
  | none => ([], some (some "N/A"))
  | some .null => ([], some none)
  | some (.str s) => ([], some (some s))
  | some _ => ([⟨[.key k], .notString⟩], none)

/-- Validate one lead mapping against the `Lead` model, collecting every
field error in field declaration order. -/
def validateLead (em : List (String × Json)) : Except (List FieldError) Lead :=
  match (checkReqStr em "name").2, (checkOptStr em "address").2, (checkOptStr em "phone").2,
      (checkOptStr em "website").2, (checkReqStr em "confidence_score").2,
      (checkReqStr em "source").2 with
  | some n, some a, some p, some w, some c, some s => .ok ⟨n, a, p, w, c, s⟩
  | _, _, _, _, _, _ =>
    .error ((checkReqStr em "name").1 ++ (checkOptStr em "address").1 ++
      (checkOptStr em "phone").1 ++ (checkOptStr em "website").1 ++
      (checkReqStr em "confidence_score").1 ++ (checkReqStr em "source").1)

/-- Prefix every error location with the path down to the current
element. -/
def withLoc (pre : List PathStep) (es : List FieldError) : List FieldError :=
  es.map (fun e => ⟨pre ++ e.loc, e.kind⟩)

/-- Validate the `i`-th element of `leads`: it must be a mapping and
satisfy the `Lead` model; errors are reported under `leads -> i`. -/
def validateElem (i : Nat) (x : Json) : Except (List FieldError) Lead :=
  match x with
  | .obj em =>
    match validateLead em with
    | .ok l => .ok l
    | .error es => .error (withLoc [.key "leads", .idx i] es)
  | _ => .error [⟨[.key "leads", .idx i], .notDict⟩]

/-- Validate the elements of `leads` (index `i` is the position of the
head), collecting errors across all elements. -/
def validateLeads : List Json → Nat → Except (List FieldError) (List Lead)
  | [], _ => .ok []
  | x :: rest, i =>
    match validateElem i x, validateLeads rest (i + 1) with
    | .ok l, .ok ls => .ok (l :: ls)
    | .ok _, .error es2 => .error es2
    | .error es1, .ok _ => .error es1
    | .error es1, .error es2 => .error (es1 ++ es2)

/-- Model of `LeadList(**json_data)`: require a `leads` key holding a list and
validate every element, all-or-nothing. -/
def validateLeadList (m : List (String × Json)) : Except (List FieldError) LeadList :=
  match getKey m "leads" with
  | none => .error [⟨[.key "leads"], .missing⟩]
  | some (.arr xs) =>
    match validateLeads xs 0 with
    | .ok ls => .ok ⟨ls⟩
    | .error es => .error es
  | some _ => .error [⟨[.key "leads"], .notList⟩]

/-- Zero test on a JSON number lexeme (every mantissa digit is `0`). -/
def numIsZero (lex : String) : Bool :=
  (lex.data.takeWhile (fun c => c ≠ 'e' ∧ c ≠ 'E')).all
    (fun c => c = '0' || c = '-' || c = '.')

/-- Python truthiness of a decoded JSON value. -/
def jsonTruthy : Json → Bool
  | .null => false
  | .bool b => b
  | .str s => !s.isEmpty
  | .num lex => !numIsZero lex
  | .arr xs => !xs.isEmpty
  | .obj m => !m.isEmpty

/-- Truthiness of `dict.get(...)`: a missing key is Python `None`. -/
def optTruthy : Option Json → Bool
  | none => false
  | some j => jsonTruthy j

/-- Outcome of the synchronous `agent.run` call: its returned text, or an
exception escaping it. -/
inductive AgentOutcome where
  | ok (text : String) : AgentOutcome
  | raise : AgentOutcome

/-- Response payloads the handler can produce. -/
inductive RespBody where
  | errMsg (msg : String) : RespBody
  | errDetails (msg : String) (details : List FieldError) : RespBody
  | leadsOut (ll : LeadList) : RespBody

/-- An HTTP response: status code plus serialized payload. -/
structure HttpResponse where
  status : Nat
  body : RespBody

/-- The `/generate-leads` handler.  Arguments: whether the module-level
agent was initialized, the parsed request body, and the outcome of the
agent call (consulted only if control reaches it).  The second component
records whether `agent.run` was invoked. -/
def generate_leads (agentReady : Bool) (body : Json) (agentResult : AgentOutcome) :
    HttpResponse × Bool :=
  if agentReady = false then
    (⟨503, .errMsg "Agent not initialized. Check server logs."⟩, false)
  else if jsonTruthy body = false then
    (⟨400, .errMsg "Invalid JSON payload."⟩, false)
  else
    match body with
    | .obj bm =>
      if (optTruthy (getKey bm "business_type") && optTruthy (getKey bm "location")) = false then
        (⟨400, .errMsg "Missing \x27business_type\x27 or \x27location\x27 in request."⟩, false)
      else
        match agentResult with
        | .raise => (⟨500, .errMsg "An internal server error occurred."⟩, true)
        | .ok text =>
          match extract_json_from_response text with
          | none => (⟨502, .errMsg "Agent returned a non-JSON response."⟩, true)
          | some jd =>
            if jsonTruthy jd = false then
              (⟨502, .errMsg "Agent returned a non-JSON response."⟩, true)
            else
              match jd with
              | .obj jm =>
                match validateLeadList jm with
                | .ok ll => (⟨200, .leadsOut ll⟩, true)
                | .error es =>
                  (⟨502, .errDetails "Agent returned data in an invalid structure." es⟩, true)
              | _ => (⟨500, .errMsg "An internal server error occurred."⟩, true)
    | _ => (⟨500, .errMsg "An internal server error occurred."⟩, false)

/-- A well-formed request body used by the end-to-end statements whose
subject is the post-parse part of the pipeline. -/
def goodBody : Json :=
  .obj [("business_type", .str "restaurants"), ("location", .str "Paris")]

/-- The agent text of end-to-end scenario 1 in the specification. -/
def scenario1Text : String :=
  "Here you go:\n```json\n\x7b\"leads\":[\x7b\"name\":\"Acme Co\",\"source\":\"http://acme.example\"\x7d]\x7d\n```"

/-- Position `i` is the first occurrence of `c` in `cs` (Python
`str.find`). -/
def isFirstIdx (cs : List Char) (c : Char) (i : Nat) : Prop :=
  cs.get? i = some c ∧ ∀ k, k < i → cs.get? k ≠ some c

/-- Position `i` is the last occurrence of `c` in `cs` (Python
`str.rfind`). -/
def isLastIdx (cs : List Char) (c : Char) (i : Nat) : Prop :=
  cs.get? i = some c ∧ ∀ k, k < cs.length → i < k → cs.get? k ≠ some c

/-- A required string field of a lead mapping is bad: no string value is
present under the key (covers a missing key, a `null` value and every
non-string value). -/
def reqFieldBad (em : List (String × Json)) (k : String) : Prop :=
  ∀ s, getKey em k ≠ some (.str s)

/-- An optional string field of a lead mapping is bad: the key is present
with a value that is neither `null` nor a string. -/
def optFieldBad (em : List (String × Json)) (k : String) : Prop :=
  ∃ j, getKey em k = some j ∧ j ≠ Json.null ∧ ∀ s, j ≠ Json.str s

/-- Field `k` of lead mapping `em` fails `Lead` validation. -/
def leadFieldBad (em : List (String × Json)) (k : String) : Prop :=
  ((k = "name" ∨ k = "confidence_score" ∨ k = "source") ∧ reqFieldBad em k) ∨
  ((k = "address" ∨ k = "phone" ∨ k = "website") ∧ optFieldBad em k)

/-- With a ready agent and a well-formed body, the handler outcome is
decided entirely by the extraction/decode/validation pipeline run on the
agent text. -/
theorem generate_leads_ready_run (text : String) :
    generate_leads true goodBody (.ok text) =
      (match extract_json_from_response text with
      | none => (⟨502, .errMsg "Agent returned a non-JSON response."⟩, true)
      | some jd =>
        if jsonTruthy jd = false then
          (⟨502, .errMsg "Agent returned a non-JSON response."⟩, true)
        else
          match jd with
          | .obj jm =>
            match validateLeadList jm with
            | .ok ll => (⟨200, .leadsOut ll⟩, true)
            | .error es =>
              (⟨502, .errDetails "Agent returned data in an invalid structure." es⟩, true)
          | _ => (⟨500, .errMsg "An internal server error occurred."⟩, true)) := rfl

/-- C8: when the agent failed to initialize, every POST to
`/generate-leads` gets the 503 "agent not ready" failure; the result does
not depend on the body or the agent outcome and `agent.run` is never
invoked. -/
theorem not_ready_503 (body : Json) (ar : AgentOutcome) :
    generate_leads false body ar =
      (⟨503, .errMsg "Agent not initialized. Check server logs."⟩, false) := rfl

/-- C9: when the extracted candidate decodes to the empty JSON object, the
handler still returns the 502 "Agent returned a non-JSON response."
failure of the extraction branch (the decoded value is tested for
truthiness, and an empty dict is falsy), not a schema-validation failure
with field details. -/
theorem empty_object_502 (text : String)
    (h : extract_json_from_response text = some (.obj [])) :
    generate_leads true goodBody (.ok text) =
      (⟨502, .errMsg "Agent returned a non-JSON response."⟩, true) := by
  rw [generate_leads_ready_run, h]
  rfl

/-- Witness for C9: the agent text `{}` decodes to the empty object and the
handler answers with the extraction-branch 502. -/
theorem empty_object_502_witness :
    generate_leads true goodBody (.ok "\x7b\x7d") =
      (⟨502, .errMsg "Agent returned a non-JSON response."⟩, true) :=
  empty_object_502 "\x7b\x7d" rfl

/-- C6: when the selected candidate substring is not syntactically valid
JSON, decoding yields the explicit absence result (no exception escapes
`extract_json_from_response`) and the handler maps it to the 502
failure. -/
theorem decode_failure_502 (text : String) (s : List Char)
    (hc : extractCandidate text.data = some s)
    (hp : parseJson (String.mk s) = none) :
    extract_json_from_response text = none ∧
    generate_leads true goodBody (.ok text) =
      (⟨502, .errMsg "Agent returned a non-JSON response."⟩, true) := by
  have he : extract_json_from_response text = none := by
    unfold extract_json_from_response
    rw [hc]
    exact hp
  refine ⟨he, ?_⟩
  rw [generate_leads_ready_run, he]

/-- Witness for C6: the agent text `{oops}` selects the candidate `{oops}`,
which fails to decode, and the handler answers 502. -/
theorem decode_failure_502_witness :
    extract_json_from_response "\x7boops\x7d" = none ∧
    generate_leads true goodBody (.ok "\x7boops\x7d") =
      (⟨502, .errMsg "Agent returned a non-JSON response."⟩, true) :=
  decode_failure_502 "\x7boops\x7d" ("\x7boops\x7d").data rfl rfl

/-- C7: with a ready agent, a JSON-object body whose `business_type` or
`location` is missing or the empty string is answered with a
400-equivalent bad-request failure and `agent.run` is never invoked. -/
theorem missing_fields_400 (bm : List (String × Json)) (ar : AgentOutcome)
    (h : (getKey bm "business_type" = none ∨ getKey bm "business_type" = some (.str "")) ∨
         (getKey bm "location" = none ∨ getKey bm "location" = some (.str ""))) :
    (generate_leads true (.obj bm) ar).1.status = 400 ∧
    (generate_leads true (.obj bm) ar).2 = false := by
  have hbt : (optTruthy (getKey bm "business_type") && optTruthy (getKey bm "location")) = false := by
    rcases h with h | h
    · rcases h with h | h <;> rw [h] <;> exact Bool.false_and _
    · rcases h with h | h <;> rw [h] <;> exact Bool.and_false _
  unfold generate_leads
  cases htr : jsonTruthy (.obj bm) with
  | false => simp [htr]
  | true => simp [htr, hbt]

/-- Witness for C7: end-to-end scenario 3, body
`{"business_type": "", "location": "Paris"}`, gives a 400 without
invoking the agent. -/
theorem missing_fields_400_witness :
    (generate_leads true (.obj [("business_type", .str ""), ("location", .str "Paris")])
        (.ok scenario1Text)).1.status = 400 ∧
    (generate_leads true (.obj [("business_type", .str ""), ("location", .str "Paris")])
        (.ok scenario1Text)).2 = false :=
  missing_fields_400 [("business_type", .str ""), ("location", .str "Paris")]
    (.ok scenario1Text) (Or.inl (Or.inr rfl))

/-- C1 counterexample: on end-to-end scenario 1 the handler does not
return a success: the scenario lead has no `confidence_score`, a required
field of `Lead`. -/
theorem scenario1_counterexample :
    (generate_leads true goodBody (.ok scenario1Text)).1.status ≠ 200 := by decide

/-- C1 amended: for the scenario-1 agent text, extraction and decoding
succeed, but validation rejects the single lead with a missing
`confidence_score` field error, and the handler returns the
502-equivalent validation failure carrying that error. -/
theorem scenario1_amended :
    extract_json_from_response scenario1Text =
      some (.obj [("leads", .arr [.obj [("name", .str "Acme Co"),
        ("source", .str "http://acme.example")]])]) ∧
    validateLeadList [("leads", .arr [.obj [("name", .str "Acme Co"),
        ("source", .str "http://acme.example")]])] =
      .error [⟨[.key "leads", .idx 0, .key "confidence_score"], .missing⟩] ∧
    generate_leads true goodBody (.ok scenario1Text) =
      (⟨502, .errDetails "Agent returned data in an invalid structure."
        [⟨[.key "leads", .idx 0, .key "confidence_score"], .missing⟩]⟩, true) :=
  ⟨rfl, rfl, rfl⟩

/-- C2 counterexample: a lead whose `name` and `source` are the empty
string passes validation (pydantic `str` fields accept empty text), so
"empty text fails validation for the whole list" is false. -/
theorem empty_strings_accepted_counterexample :
    validateLeadList [("leads", .arr [.obj [("name", .str ""), ("source", .str ""),
        ("confidence_score", .str "High")]])] =
      .ok ⟨[⟨"", some "N/A", some "N/A", some "N/A", "High", ""⟩]⟩ := rfl

/-- C3 counterexample: the text holds a `json`-tagged fenced block with
valid JSON, but the leftmost fenced block of the text captures `{x}`,
which fails to decode, so the pipeline decodes to nothing rather than to
the parse of the valid inner JSON. -/
theorem fenced_block_counterexample :
    regexSearch ("```\x7bx\x7d``` ```json\n\x7b\"a\": 1\x7d\n```").data =
      some ("\x7bx\x7d").data ∧
    parseJson "\x7b\"a\": 1\x7d" = some (.obj [("a", .num "1")]) ∧
    extract_json_from_response "```\x7bx\x7d``` ```json\n\x7b\"a\": 1\x7d\n```" = none :=
  ⟨rfl, rfl, rfl⟩

/-- Python `str.find` misses exactly when no position holds the character. -/
theorem pyFindIdx_none_iff (cs : List Char) (c : Char) :
    pyFindIdx cs c = none ↔ ∀ k, cs.get? k ≠ some c := by
  induction cs with
  | nil => simp [pyFindIdx]
  | cons a rest ih =>
    constructor
    · intro h k
      unfold pyFindIdx at h
      by_cases hac : a = c
      · rw [if_pos hac] at h
        exact absurd h (by simp)
      · rw [if_neg hac] at h
        have hrest : pyFindIdx rest c = none := by
          cases hfr : pyFindIdx rest c with
          | none => rfl
          | some i => rw [hfr] at h; exact absurd h (by simp)
        cases k with
        | zero => simp [hac]
        | succ k2 => simpa using ih.mp hrest k2
    · intro h
      unfold pyFindIdx
      have hac : a ≠ c := by
        intro e
        exact h 0 (by simp [e])
      rw [if_neg hac, ih.mpr (fun k => by simpa using h (k + 1))]
      rfl

/-- Python `str.find` returns exactly the first index holding the character. -/
theorem pyFindIdx_some_iff (cs : List Char) (c : Char) (i : Nat) :
    pyFindIdx cs c = some i ↔ isFirstIdx cs c i := by
  unfold isFirstIdx
  induction cs generalizing i with
  | nil => simp [pyFindIdx]
  | cons a rest ih =>
    unfold pyFindIdx
    by_cases hac : a = c
    · rw [if_pos hac]
      constructor
      · intro h
        injection h with h2
        subst h2
        exact ⟨by simp [hac], by intro k hk; omega⟩
      · rintro ⟨h1, h2⟩
        cases i with
        | zero => rfl
        | succ i2 => exact absurd (by simp [hac] : (a :: rest).get? 0 = some c) (h2 0 (Nat.succ_pos _))
    · rw [if_neg hac]
      cases hfr : pyFindIdx rest c with
      | none =>
        have hnone := (pyFindIdx_none_iff rest c).mp hfr
        constructor
        · intro h
          exact absurd h (by simp)
        · rintro ⟨h1, h2⟩
          exfalso
          cases i with
          | zero => exact hac (by simpa using h1)
          | succ i2 => exact hnone i2 (by simpa using h1)
      | some j =>
        obtain ⟨hj1, hj2⟩ := (ih j).mp hfr
        constructor
        · intro h
          simp only [Option.map_some'] at h
          injection h with h2
          subst h2
          refine ⟨by simpa using hj1, ?_⟩
          intro k hk
          cases k with
          | zero => simp [hac]
          | succ k2 => simpa using hj2 k2 (by omega)
        · rintro ⟨h1, h2⟩
          cases i with
          | zero => exact absurd (by simpa using h1) hac
          | succ i2 =>
            have hres : pyFindIdx rest c = some i2 :=
              (ih i2).mpr ⟨by simpa using h1, fun k hk => by simpa using h2 (k + 1) (by omega)⟩
            rw [hfr] at hres
            injection hres with h3
            rw [h3]
            rfl

/-- Python `str.rfind` misses exactly when no position holds the character. -/
theorem pyRFindIdx_none_iff (cs : List Char) (c : Char) :
    pyRFindIdx cs c = none ↔ ∀ k, cs.get? k ≠ some c := by
  induction cs with
  | nil => simp [pyRFindIdx]
  | cons a rest ih =>
    constructor
    · intro h
      unfold pyRFindIdx at h
      cases hfr : pyRFindIdx rest c with
      | some j => rw [hfr] at h; exact absurd h (by simp)
      | none =>
        rw [hfr] at h
        have hac : a ≠ c := by
          intro e
          rw [if_pos e] at h
          exact absurd h (by simp)
        intro k
        cases k with
        | zero => simp [hac]
        | succ k2 => simpa using ih.mp hfr k2
    · intro h
      unfold pyRFindIdx
      rw [ih.mpr (fun k => by simpa using h (k + 1))]
      have hac : a ≠ c := by
        intro e
        exact h 0 (by simp [e])
      rw [if_neg hac]

/-- Python `str.rfind` returns exactly the last index holding the character. -/
theorem pyRFindIdx_some_iff (cs : List Char) (c : Char) (i : Nat) :
    pyRFindIdx cs c = some i ↔ isLastIdx cs c i := by
  unfold isLastIdx
  induction cs generalizing i with
  | nil => simp [pyRFindIdx]
  | cons a rest ih =>
    unfold pyRFindIdx
    cases hfr : pyRFindIdx rest c with
    | some j =>
      obtain ⟨hj1, hj2⟩ := (ih j).mp hfr
      constructor
      · intro h
        injection h with h2
        subst h2
        refine ⟨by simpa using hj1, ?_⟩
        intro k hk1 hk2
        cases k with
        | zero => omega
        | succ k2 =>
          have : k2 < rest.length := by simpa using hk1
          simpa using hj2 k2 this (by omega)
      · rintro ⟨h1, h2⟩
        cases i with
        | zero =>
          exfalso
          have hjlen : j < rest.length := by
            rcases List.get?_eq_some.mp hj1 with ⟨hlt, _⟩
            exact hlt
          exact h2 (j + 1) (by simpa using Nat.succ_lt_succ hjlen) (by omega) (by simpa using hj1)
        | succ i2 =>
          have hres : pyRFindIdx rest c = some i2 :=
            (ih i2).mpr ⟨by simpa using h1,
              fun k hk1 hk2 => by simpa using h2 (k + 1) (by simpa using Nat.succ_lt_succ hk1) (by omega)⟩
          rw [hfr] at hres
          injection hres with h3
          rw [h3]
    | none =>
      have hnone := (pyRFindIdx_none_iff rest c).mp hfr
      by_cases hac : a = c
      · rw [if_pos hac]
        constructor
        · intro h
          injection h with h2
          subst h2
          refine ⟨by simp [hac], ?_⟩
          intro k hk1 hk2
          cases k with
          | zero => omega
          | succ k2 => simpa using hnone k2
        · rintro ⟨h1, h2⟩
          cases i with
          | zero => rfl
          | succ i2 => exact absurd (by simpa using h1) (hnone i2)
      · rw [if_neg hac]
        constructor
        · intro h
          exact absurd h (by simp)
        · rintro ⟨h1, h2⟩
          exfalso
          cases i with
          | zero => exact hac (by simpa using h1)
          | succ i2 => exact hnone i2 (by simpa using h1)

/-- C4: with no fenced-block match, extraction returns nothing when the
text has no `{`, no `}`, or its first `{` after its last `}`; otherwise
it selects the inclusive substring from the first `{` to the last `}`. -/
theorem fallback_extraction (cs : List Char) (hre : regexSearch cs = none) :
    (((∀ k, cs.get? k ≠ some lbrace) ∨ (∀ k, cs.get? k ≠ some rbrace)) →
        extractCandidate cs = none) ∧
    (∀ i j, isFirstIdx cs lbrace i → isLastIdx cs rbrace j →
        (j < i → extractCandidate cs = none) ∧
        (i < j → extractCandidate cs = some ((cs.drop i).take (j - i + 1)))) := by
  constructor
  · intro h
    unfold extractCandidate
    rw [hre]
    rcases h with h | h
    · rw [(pyFindIdx_none_iff cs lbrace).mpr h]
    · rw [(pyRFindIdx_none_iff cs rbrace).mpr h]
      cases pyFindIdx cs lbrace <;> rfl
  · intro i j hf hl
    have hfi : pyFindIdx cs lbrace = some i := (pyFindIdx_some_iff cs lbrace i).mpr hf
    have hlj : pyRFindIdx cs rbrace = some j := (pyRFindIdx_some_iff cs rbrace j).mpr hl
    constructor
    · intro hji
      simp [extractCandidate, hre, hfi, hlj, show ¬ i < j from by omega]
    · intro hij
      simp [extractCandidate, hre, hfi, hlj, hij]

/-- Witness for C4: on `ab{c}d` (no fenced block) extraction selects the
span from the first `{` (index 2) to the last `}` (index 4). -/
theorem fallback_extraction_witness :
    extractCandidate ("ab\x7bc\x7dd").data =
      some (((("ab\x7bc\x7dd").data).drop 2).take 3) :=
  ((fallback_extraction ("ab\x7bc\x7dd").data rfl).2 2 4 ⟨by decide, by decide⟩
    ⟨by decide, by decide⟩).2 (by decide)

/-- A bad required string field produces exactly one field error under its
own key and no value. -/
theorem checkReqStr_bad (em : List (String × Json)) (k : String) (h : reqFieldBad em k) :
    ∃ kd, checkReqStr em k = ([⟨[.key k], kd⟩], none) := by
  unfold checkReqStr
  cases hg : getKey em k with
  | none => exact ⟨.missing, rfl⟩
  | some j =>
    cases j with
    | str s => exact absurd hg (h s)
    | null => exact ⟨.notString, rfl⟩
    | bool b => exact ⟨.notString, rfl⟩
    | num l => exact ⟨.notString, rfl⟩
    | arr xs => exact ⟨.notString, rfl⟩
    | obj m => exact ⟨.notString, rfl⟩

/-- A present string value (empty included) passes a required field. -/
theorem checkReqStr_str (em : List (String × Json)) (k : String) (s : String)
    (h : getKey em k = some (.str s)) : checkReqStr em k = ([], some s) := by
  unfold checkReqStr
  rw [h]

/-- A bad optional string field produces exactly one type error. -/
theorem checkOptStr_bad (em : List (String × Json)) (k : String) (h : optFieldBad em k) :
    checkOptStr em k = ([⟨[.key k], .notString⟩], none) := by
  obtain ⟨j, hg, hnull, hstr⟩ := h
  unfold checkOptStr
  rw [hg]
  cases j with
  | null => exact absurd rfl hnull
  | str s => exact absurd rfl (hstr s)
  | bool b => rfl
  | num l => rfl
  | arr xs => rfl
  | obj m => rfl

/-- An optional field passes when absent (default), `null` (Python `None`)
or a string (kept as-is). -/
theorem checkOptStr_shape (em : List (String × Json)) (k : String)
    (h : getKey em k = none ∨ getKey em k = some .null ∨ ∃ t, getKey em k = some (.str t)) :
    ∃ av, checkOptStr em k = ([], some av) ∧
      (getKey em k = some .null → av = none) ∧
      (getKey em k = none → av = some "N/A") ∧
      (∀ t, getKey em k = some (.str t) → av = some t) := by
  rcases h with h | h | ⟨t, h⟩
  · refine ⟨some "N/A", ?_, ?_, ?_, ?_⟩
    · unfold checkOptStr; rw [h]
    · intro h2; rw [h] at h2; exact Option.noConfusion h2
    · intro h2; rfl
    · intro t h2; rw [h] at h2; exact Option.noConfusion h2
  · refine ⟨none, ?_, ?_, ?_, ?_⟩
    · unfold checkOptStr; rw [h]
    · intro h2; rfl
    · intro h2; rw [h] at h2; exact Option.noConfusion h2
    · intro t h2; rw [h] at h2; injection h2 with h3; exact Json.noConfusion h3
  · refine ⟨some t, ?_, ?_, ?_, ?_⟩
    · unfold checkOptStr; rw [h]
    · intro h2; rw [h] at h2; injection h2 with h3; exact Json.noConfusion h3
    · intro h2; rw [h] at h2; exact Option.noConfusion h2
    · intro t2 h2
      rw [h] at h2
      injection h2 with h3
      injection h3 with h4
      rw [h4]

/-- When any of the six field checks fails, lead validation reports the
concatenation of the errors of all six checks (declaration order). -/
theorem validateLead_errors (em : List (String × Json))
    (h : (checkReqStr em "name").2 = none ∨ (checkOptStr em "address").2 = none ∨
         (checkOptStr em "phone").2 = none ∨ (checkOptStr em "website").2 = none ∨
         (checkReqStr em "confidence_score").2 = none ∨ (checkReqStr em "source").2 = none) :
    validateLead em = .error ((checkReqStr em "name").1 ++ (checkOptStr em "address").1 ++
      (checkOptStr em "phone").1 ++ (checkOptStr em "website").1 ++
      (checkReqStr em "confidence_score").1 ++ (checkReqStr em "source").1) := by
  unfold validateLead
  cases hN : (checkReqStr em "name").2 <;>
    cases hA : (checkOptStr em "address").2 <;>
      cases hP : (checkOptStr em "phone").2 <;>
        cases hW : (checkOptStr em "website").2 <;>
          cases hC : (checkReqStr em "confidence_score").2 <;>
            cases hS : (checkReqStr em "source").2 <;>
              simp_all

/-- A lead with a bad field fails validation and the report holds an entry
located at that field. -/
theorem validateLead_bad (em : List (String × Json)) (k : String) (h : leadFieldBad em k) :
    ∃ es, validateLead em = .error es ∧ ∃ e, e ∈ es ∧ e.loc = [PathStep.key k] := by
  rcases h with ⟨hk, hbad⟩ | ⟨hk, hbad⟩
  · rcases hk with rfl | rfl | rfl
    · obtain ⟨kd, hchk⟩ := checkReqStr_bad em "name" hbad
      refine ⟨_, validateLead_errors em (Or.inl (by rw [hchk])), ⟨[.key "name"], kd⟩, ?_, rfl⟩
      simp [hchk]
    · obtain ⟨kd, hchk⟩ := checkReqStr_bad em "confidence_score" hbad
      refine ⟨_, validateLead_errors em (Or.inr (Or.inr (Or.inr (Or.inr (Or.inl (by rw [hchk])))))),
        ⟨[.key "confidence_score"], kd⟩, ?_, rfl⟩
      simp [hchk]
    · obtain ⟨kd, hchk⟩ := checkReqStr_bad em "source" hbad
      refine ⟨_, validateLead_errors em (Or.inr (Or.inr (Or.inr (Or.inr (Or.inr (by rw [hchk])))))),
        ⟨[.key "source"], kd⟩, ?_, rfl⟩
      simp [hchk]
  · rcases hk with rfl | rfl | rfl
    · have hchk := checkOptStr_bad em "address" hbad
      refine ⟨_, validateLead_errors em (Or.inr (Or.inl (by rw [hchk]))),
        ⟨[.key "address"], .notString⟩, ?_, rfl⟩
      simp [hchk]
    · have hchk := checkOptStr_bad em "phone" hbad
      refine ⟨_, validateLead_errors em (Or.inr (Or.inr (Or.inl (by rw [hchk])))),
        ⟨[.key "phone"], .notString⟩, ?_, rfl⟩
      simp [hchk]
    · have hchk := checkOptStr_bad em "website" hbad
      refine ⟨_, validateLead_errors em (Or.inr (Or.inr (Or.inr (Or.inl (by rw [hchk]))))),
        ⟨[.key "website"], .notString⟩, ?_, rfl⟩
      simp [hchk]

/-- A failing element makes the element fold fail, and all of its
(path-prefixed) errors appear in the collected report. -/
theorem validateLeads_elem_error (xs : List Json) (k0 i : Nat) (em : List (String × Json))
    (es1 : List FieldError)
    (hx : xs.get? i = some (.obj em)) (hv : validateLead em = .error es1) :
    ∃ ES, validateLeads xs k0 = .error ES ∧
      ∀ e, e ∈ withLoc [.key "leads", .idx (k0 + i)] es1 → e ∈ ES := by
  induction xs generalizing k0 i with
  | nil => simp at hx
  | cons x rest ih =>
    cases i with
    | zero =>
      have hx0 : x = .obj em := by simpa using hx
      subst hx0
      have hcur : validateElem k0 (.obj em) = .error (withLoc [.key "leads", .idx k0] es1) := by
        have hstep : validateElem k0 (.obj em) =
            (match validateLead em with
            | .ok l => .ok l
            | .error es => .error (withLoc [.key "leads", .idx k0] es)) := rfl
        rw [hstep, hv]
      unfold validateLeads
      rw [hcur]
      cases hrec : validateLeads rest (k0 + 1) with
      | ok ls => exact ⟨_, rfl, fun e he => by simpa using he⟩
      | error es2 => exact ⟨_, rfl, fun e he => List.mem_append_left _ (by simpa using he)⟩
    | succ i2 =>
      have hx2 : rest.get? i2 = some (.obj em) := by simpa using hx
      obtain ⟨ES1, hrec, hmem⟩ := ih (k0 + 1) i2 hx2
      unfold validateLeads
      rw [hrec]
      cases hcur : validateElem k0 x with
      | ok l =>
        exact ⟨ES1, rfl, fun e he => hmem e (by
          rw [show k0 + 1 + i2 = k0 + (i2 + 1) from by omega]
          exact he)⟩
      | error es0 =>
        exact ⟨es0 ++ ES1, rfl, fun e he => List.mem_append_right _ (hmem e (by
          rw [show k0 + 1 + i2 = k0 + (i2 + 1) from by omega]
          exact he))⟩

/-- When the element fold succeeds it materializes one `Lead` per input
element. -/
theorem validateLeads_ok_length (xs : List Json) (k0 : Nat) (ls : List Lead)
    (h : validateLeads xs k0 = .ok ls) : ls.length = xs.length := by
  induction xs generalizing k0 ls with
  | nil =>
    unfold validateLeads at h
    injection h with h2
    rw [← h2]
    rfl
  | cons x rest ih =>
    unfold validateLeads at h
    cases hcur : validateElem k0 x with
    | error es =>
      rw [hcur] at h
      cases hrec : validateLeads rest (k0 + 1) <;> rw [hrec] at h <;> exact Except.noConfusion h
    | ok l =>
      rw [hcur] at h
      cases hrec : validateLeads rest (k0 + 1) with
      | error es2 => rw [hrec] at h; exact Except.noConfusion h
      | ok ls2 =>
        rw [hrec] at h
        injection h with h2
        rw [← h2]
        simp [ih (k0 + 1) ls2 hrec]

/-- The `LeadList` validation under a present `leads` array is decided by the
element fold. -/
theorem validateLeadList_cases (jm : List (String × Json)) (xs : List Json)
    (hl : getKey jm "leads" = some (.arr xs)) :
    validateLeadList jm = (match validateLeads xs 0 with
      | .ok ls => .ok ⟨ls⟩
      | .error es => .error es) := by
  unfold validateLeadList
  rw [hl]

/-- A mapping with any key is nonempty. -/
theorem getKey_ne_nil (jm : List (String × Json)) (k : String) (j : Json)
    (h : getKey jm k = some j) : jm ≠ [] := by
  intro e
  subst e
  exact Option.noConfusion h

/-- C5: validation is all-or-nothing: success materializes one `Lead` per
element and excludes any bad field anywhere; failure reports an entry for
every bad field of every element (not just the first); and the handler
maps a validation failure to the 502 response carrying that error list. -/
theorem validation_all_or_nothing (jm : List (String × Json)) (xs : List Json)
    (hl : getKey jm "leads" = some (.arr xs)) :
    (∀ ll, validateLeadList jm = .ok ll →
        ll.leads.length = xs.length ∧
        ∀ i em k, xs.get? i = some (.obj em) → ¬ leadFieldBad em k) ∧
    (∀ es i em k, validateLeadList jm = .error es → xs.get? i = some (.obj em) →
        leadFieldBad em k → ∃ e, e ∈ es ∧ e.loc = [.key "leads", .idx i, .key k]) ∧
    (∀ text es, extract_json_from_response text = some (.obj jm) →
        validateLeadList jm = .error es →
        generate_leads true goodBody (.ok text) =
          (⟨502, .errDetails "Agent returned data in an invalid structure." es⟩, true)) := by
  have hbridge := validateLeadList_cases jm xs hl
  refine ⟨?_, ?_, ?_⟩
  · intro ll hok
    cases hv : validateLeads xs 0 with
    | error es =>
      rw [hbridge, hv] at hok
      exact Except.noConfusion hok
    | ok ls =>
      rw [hbridge, hv] at hok
      injection hok with h2
      constructor
      · rw [← h2]
        exact validateLeads_ok_length xs 0 ls hv
      · intro i em k hx hbad
        obtain ⟨es1, hverr, e, hmem, hloc⟩ := validateLead_bad em k hbad
        obtain ⟨ES, hES, _⟩ := validateLeads_elem_error xs 0 i em es1 hx hverr
        rw [hv] at hES
        exact Except.noConfusion hES
  · intro es i em k herr hx hbad
    obtain ⟨es1, hverr, e, hmem, hloc⟩ := validateLead_bad em k hbad
    obtain ⟨ES, hES, hsub⟩ := validateLeads_elem_error xs 0 i em es1 hx hverr
    have hESeq : es = ES := by
      rw [hbridge, hES] at herr
      injection herr with h2
      rw [h2]
    refine ⟨⟨[.key "leads", .idx i] ++ e.loc, e.kind⟩, ?_, ?_⟩
    · rw [hESeq]
      apply hsub
      simp only [Nat.zero_add]
      exact List.mem_map_of_mem _ hmem
    · rw [show (⟨[.key "leads", .idx i] ++ e.loc, e.kind⟩ : FieldError).loc =
          [.key "leads", .idx i] ++ e.loc from rfl, hloc]
      rfl
  · intro text es hext herr
    have hne : jm ≠ [] := getKey_ne_nil jm "leads" (.arr xs) hl
    rw [generate_leads_ready_run, hext]
    have htr : jsonTruthy (.obj jm) = true := by
      cases jm with
      | nil => exact absurd rfl hne
      | cons p t => rfl
    simp [htr, herr]

/-- Witness for C5: end-to-end scenario 4, a lead carrying only an
address: the error report lists all three missing required fields, and in
particular an entry located at `leads.0.name`. -/
theorem validation_all_or_nothing_witness :
    ∃ e, e ∈ ([⟨[PathStep.key "leads", PathStep.idx 0, PathStep.key "name"], ErrKind.missing⟩,
        ⟨[PathStep.key "leads", PathStep.idx 0, PathStep.key "confidence_score"], ErrKind.missing⟩,
        ⟨[PathStep.key "leads", PathStep.idx 0, PathStep.key "source"], ErrKind.missing⟩] :
          List FieldError) ∧
      e.loc = [PathStep.key "leads", PathStep.idx 0, PathStep.key "name"] := by
  have h := (validation_all_or_nothing
      [("leads", Json.arr [Json.obj [("address", Json.str "123 Main St")]])]
      [Json.obj [("address", Json.str "123 Main St")]] rfl).2.1
  exact h _ 0 [("address", Json.str "123 Main St")] "name" rfl rfl
    (Or.inl ⟨Or.inl rfl, fun s hs => by
      rw [show getKey [("address", Json.str "123 Main St")] "name" = none from rfl] at hs
      exact Option.noConfusion hs⟩)

/-- C2 amended: every lead element must carry `name` and `source` keys
with string values (empty strings are accepted); a missing key, a `null`
value or any non-string value for either key fails validation of the
whole list, so no `Lead` and no `LeadList` is constructed. -/
theorem required_fields_amended (jm : List (String × Json)) (xs : List Json) (i : Nat)
    (em : List (String × Json))
    (hl : getKey jm "leads" = some (.arr xs)) (hx : xs.get? i = some (.obj em))
    (hbad : reqFieldBad em "name" ∨ reqFieldBad em "source") :
    ∃ es, validateLeadList jm = .error es ∧ es ≠ [] := by
  have hfb : ∃ k, leadFieldBad em k := by
    rcases hbad with h | h
    · exact ⟨"name", Or.inl ⟨Or.inl rfl, h⟩⟩
    · exact ⟨"source", Or.inl ⟨Or.inr (Or.inr rfl), h⟩⟩
  obtain ⟨k, hk⟩ := hfb
  obtain ⟨es1, hverr, e, hmem, hloc⟩ := validateLead_bad em k hk
  obtain ⟨ES, hES, hsub⟩ := validateLeads_elem_error xs 0 i em es1 hx hverr
  refine ⟨ES, ?_, ?_⟩
  · rw [validateLeadList_cases jm xs hl, hES]
  · intro hnil
    have hin : (⟨[.key "leads", .idx (0 + i)] ++ e.loc, e.kind⟩ : FieldError) ∈ ES :=
      hsub _ (List.mem_map_of_mem _ hmem)
    rw [hnil] at hin
    exact absurd hin (List.not_mem_nil _)

/-- Witness for C2 amended: a single lead holding only `source` (so
`name` is absent) makes the whole-list validation fail. -/
theorem required_fields_amended_witness :
    ∃ es, validateLeadList [("leads", Json.arr [Json.obj [("source", Json.str "s")]])] =
      .error es ∧ es ≠ [] := by
  apply required_fields_amended [("leads", Json.arr [Json.obj [("source", Json.str "s")]])]
    [Json.obj [("source", Json.str "s")]] 0 [("source", Json.str "s")] rfl rfl
  left
  intro s hs
  rw [show getKey [("source", Json.str "s")] "name" = none from rfl] at hs
  exact Option.noConfusion hs

/-- C10: for a lead element whose required fields hold strings and whose
optional fields are each absent, `null` or a string, validation succeeds;
an explicit `null` materializes as `None` on the `Lead` while the `N/A`
default is substituted only for a key that is entirely absent, and a
present string is kept as-is. -/
theorem optional_null_vs_absent (em : List (String × Json)) (n c s : String)
    (hn : getKey em "name" = some (.str n))
    (hc : getKey em "confidence_score" = some (.str c))
    (hs : getKey em "source" = some (.str s))
    (ha : getKey em "address" = none ∨ getKey em "address" = some .null ∨
          ∃ t, getKey em "address" = some (.str t))
    (hp : getKey em "phone" = none ∨ getKey em "phone" = some .null ∨
          ∃ t, getKey em "phone" = some (.str t))
    (hw : getKey em "website" = none ∨ getKey em "website" = some .null ∨
          ∃ t, getKey em "website" = some (.str t)) :
    ∃ l, validateLead em = .ok l ∧ l.name = n ∧ l.confidence_score = c ∧ l.source = s ∧
      ((getKey em "address" = some .null → l.address = none) ∧
       (getKey em "address" = none → l.address = some "N/A") ∧
       (∀ t, getKey em "address" = some (.str t) → l.address = some t)) ∧
      ((getKey em "phone" = some .null → l.phone = none) ∧
       (getKey em "phone" = none → l.phone = some "N/A") ∧
       (∀ t, getKey em "phone" = some (.str t) → l.phone = some t)) ∧
      ((getKey em "website" = some .null → l.website = none) ∧
       (getKey em "website" = none → l.website = some "N/A") ∧
       (∀ t, getKey em "website" = some (.str t) → l.website = some t)) := by
  obtain ⟨av, hA, hA1, hA2, hA3⟩ := checkOptStr_shape em "address" ha
  obtain ⟨pv, hP, hP1, hP2, hP3⟩ := checkOptStr_shape em "phone" hp
  obtain ⟨wv, hW, hW1, hW2, hW3⟩ := checkOptStr_shape em "website" hw
  have hN := checkReqStr_str em "name" n hn
  have hC := checkReqStr_str em "confidence_score" c hc
  have hS := checkReqStr_str em "source" s hs
  refine ⟨⟨n, av, pv, wv, c, s⟩, ?_, rfl, rfl, rfl,
    ⟨hA1, hA2, hA3⟩, ⟨hP1, hP2, hP3⟩, ⟨hW1, hW2, hW3⟩⟩
  unfold validateLead
  rw [hN, hA, hP, hW, hC, hS]

/-- Witness for C10: a lead with `address: null`, no `phone` key and a
string `website` validates to `None`, the `N/A` default and the given
string respectively. -/
theorem optional_null_vs_absent_witness :
    ∃ l, validateLead [("name", Json.str "A"), ("source", Json.str "S"),
        ("confidence_score", Json.str "High"), ("address", Json.null),
        ("website", Json.str "http://w.example")] = .ok l ∧
      l.address = none ∧ l.phone = some "N/A" ∧ l.website = some "http://w.example" := by
  obtain ⟨l, hok, h1, h2, h3, ⟨ha1, ha2, ha3⟩, ⟨hp1, hp2, hp3⟩, ⟨hw1, hw2, hw3⟩⟩ :=
    optional_null_vs_absent [("name", Json.str "A"), ("source", Json.str "S"),
        ("confidence_score", Json.str "High"), ("address", Json.null),
        ("website", Json.str "http://w.example")] "A" "High" "S" rfl rfl rfl
      (Or.inr (Or.inl rfl)) (Or.inl rfl) (Or.inr (Or.inr ⟨"http://w.example", rfl⟩))
  exact ⟨l, hok, ha1 rfl, hp2 rfl, hw3 _ rfl⟩

/-- The last element of a list is a member. -/
theorem mem_getLastSome (l : List Char) (a : Char) (h : l.getLast? = some a) : a ∈ l := by
  induction l with
  | nil => exact absurd h (by simp)
  | cons x rest ih =>
    cases rest with
    | nil =>
      have : x = a := by simpa using h
      rw [this]
      exact List.mem_cons_self _ _
    | cons y t =>
      rw [List.getLast?_cons_cons] at h
      exact List.mem_cons_of_mem _ (ih h)

/-- Dropping a prefix of `p`-satisfying elements stops inside `l1` when
`l1` holds a violating element. -/
theorem dropWhileAppendNotAll (p : Char → Bool) (l1 l2 : List Char)
    (h : ∃ c, c ∈ l1 ∧ p c = false) :
    List.dropWhile p (l1 ++ l2) = List.dropWhile p l1 ++ l2 := by
  induction l1 with
  | nil =>
    obtain ⟨c, hc, _⟩ := h
    exact absurd hc (List.not_mem_nil _)
  | cons a t ih =>
    cases hpa : p a with
    | true =>
      rw [List.cons_append, List.dropWhile_cons, List.dropWhile_cons, if_pos hpa, if_pos hpa]
      apply ih
      obtain ⟨c, hc, hpc⟩ := h
      rcases List.mem_cons.mp hc with rfl | hct
      · rw [hpa] at hpc
        exact absurd hpc (by simp)
      · exact ⟨c, hct, hpc⟩
    | false =>
      rw [List.cons_append, List.dropWhile_cons, List.dropWhile_cons,
        if_neg (by simp [hpa]), if_neg (by simp [hpa])]
      rfl

/-- The head surviving `dropWhile` is an element of the input. -/
theorem headDropWhileMem (p : Char → Bool) (l : List Char) (d : Char) (r : List Char)
    (h : List.dropWhile p l = d :: r) : d ∈ l := by
  induction l generalizing r with
  | nil => exact absurd h (by simp)
  | cons a t ih =>
    rw [List.dropWhile_cons] at h
    by_cases hpa : p a = true
    · rw [if_pos hpa] at h
      exact List.mem_cons_of_mem _ (ih r h)
    · rw [if_neg hpa] at h
      injection h with h1 _
      rw [← h1]
      exact List.mem_cons_self _ _

/-- A list whose head is not a backtick does not start a closing fence. -/
theorem startsWithTicks_cons_ne (d : Char) (l : List Char) (hd : d ≠ tick) :
    startsWithTicks (d :: l) = false := by
  cases l with
  | nil => rfl
  | cons b t =>
    cases t with
    | nil => rfl
    | cons c u => simp [startsWithTicks, hd]

/-- The lazy regex body scan consumes exactly a backtick-free,
`}`-terminated block content when the closing fence follows. -/
theorem lazyScan_exact (body tail : List Char)
    (hterm : startsWithTicks (List.dropWhile reWs tail) = true) :
    body ≠ [] → body.getLast? = some rbrace → tick ∉ body →
    lazyScan (body ++ tail) = some body := by
  induction body with
  | nil =>
    intro hne _ _
    exact absurd rfl hne
  | cons b body2 ih =>
    intro hne hlast htick
    cases body2 with
    | nil =>
      have hb : b = rbrace := by simpa using hlast
      subst hb
      show lazyScan (rbrace :: tail) = some [rbrace]
      unfold lazyScan
      rw [if_pos ⟨rfl, hterm⟩]
    | cons b2 t2 =>
      have hlast2 : (b2 :: t2).getLast? = some rbrace := by
        rw [← hlast, List.getLast?_cons_cons]
      have htick2 : tick ∉ (b2 :: t2) := fun hm => htick (List.mem_cons_of_mem _ hm)
      have hmem : rbrace ∈ (b2 :: t2) := mem_getLastSome _ _ hlast2
      have happ : List.dropWhile reWs ((b2 :: t2) ++ tail) =
          List.dropWhile reWs (b2 :: t2) ++ tail :=
        dropWhileAppendNotAll _ _ _ ⟨rbrace, hmem, by decide⟩
      have hnn : List.dropWhile reWs (b2 :: t2) ≠ [] := by
        intro e
        have hws := List.dropWhile_eq_nil_iff.mp e rbrace hmem
        exact absurd hws (by decide)
      obtain ⟨d, r, hdr⟩ : ∃ d r, List.dropWhile reWs (b2 :: t2) = d :: r := by
        cases hh : List.dropWhile reWs (b2 :: t2) with
        | nil => exact absurd hh hnn
        | cons d r => exact ⟨d, r, rfl⟩
      have hdt : d ≠ tick := fun e => htick2 (e ▸ headDropWhileMem _ _ _ _ hdr)
      have hsw : startsWithTicks (List.dropWhile reWs ((b2 :: t2) ++ tail)) = false := by
        rw [happ, hdr]
        exact startsWithTicks_cons_ne d (r ++ tail) hdt
      show lazyScan (b :: ((b2 :: t2) ++ tail)) = some (b :: b2 :: t2)
      unfold lazyScan
      rw [if_neg (fun hcond => by
        rw [hsw] at hcond
        exact Bool.noConfusion hcond.2)]
      rw [ih (List.cons_ne_nil _ _) hlast2 htick2]
      rfl

/-- The fenced-block pattern cannot match at a non-backtick character. -/
theorem matchAt_ne_tick (c : Char) (l : List Char) (hc : c ≠ tick) :
    matchAt (c :: l) = none := by
  cases l with
  | nil => rfl
  | cons b t =>
    cases t with
    | nil => rfl
    | cons d u =>
      simp only [matchAt]
      rw [if_neg (fun hcond => hc hcond.1)]

/-- The fenced-block pattern matches at a well-formed `json`-tagged fence
and captures exactly the brace-delimited content. -/
theorem matchAt_fence (body post : List Char)
    (hne : body ≠ []) (hlast : body.getLast? = some rbrace) (htick : tick ∉ body) :
    matchAt (tick :: tick :: tick :: 'j' :: 's' :: 'o' :: 'n' :: '\n' ::
      (lbrace :: body ++ '\n' :: tick :: tick :: tick :: post)) = some (lbrace :: body) := by
  have hterm : startsWithTicks (List.dropWhile reWs
      ('\n' :: tick :: tick :: tick :: post)) = true := by
    rw [List.dropWhile_cons, if_pos (by decide), List.dropWhile_cons, if_neg (by decide)]
    simp [startsWithTicks]
  have hdw : List.dropWhile reWs (jsonTagStrip ('j' :: 's' :: 'o' :: 'n' :: '\n' ::
      (lbrace :: body ++ '\n' :: tick :: tick :: tick :: post))) =
      lbrace :: (body ++ '\n' :: tick :: tick :: tick :: post) := by
    show List.dropWhile reWs ('\n' :: lbrace ::
      (body ++ '\n' :: tick :: tick :: tick :: post)) = _
    rw [List.dropWhile_cons, if_pos (by decide), List.dropWhile_cons, if_neg (by decide)]
  simp only [matchAt]
  rw [if_pos (by simp), hdw]
  show (if lbrace = lbrace then Option.map (fun g => lbrace :: g)
      (lazyScan (body ++ '\n' :: tick :: tick :: tick :: post)) else none) = some (lbrace :: body)
  rw [if_pos rfl,
    lazyScan_exact body ('\n' :: tick :: tick :: tick :: post) hterm hne hlast htick]
  rfl

/-- The leftmost regex match in a backtick-free prefix followed by a
matching tail is the tail's match. -/
theorem regexSearch_pre (pre T g : List Char) (hpre : tick ∉ pre)
    (hm : matchAt T = some g) : regexSearch (pre ++ T) = some g := by
  induction pre with
  | nil =>
    cases T with
    | nil => exact absurd hm (by simp [matchAt])
    | cons c rest =>
      show regexSearch (c :: rest) = some g
      unfold regexSearch
      rw [hm]
  | cons a pre2 ih =>
    have ha : a ≠ tick := fun e => hpre (List.mem_cons.mpr (Or.inl e.symm))
    show regexSearch (a :: (pre2 ++ T)) = some g
    unfold regexSearch
    rw [matchAt_ne_tick a _ ha, ih (fun hm2 => hpre (List.mem_cons_of_mem _ hm2))]

/-- C3 amended: for a text whose backtick-free prefix is followed by a
`json`-tagged fenced block with backtick-free, brace-delimited content
that parses as JSON, extraction selects exactly that inner content, and
the pipeline decodes to its parse. -/
theorem fenced_extraction_amended (pre body post : List Char) (v : Json)
    (hpre : tick ∉ pre) (htick : tick ∉ body)
    (hne : body ≠ []) (hlast : body.getLast? = some rbrace)
    (hparse : parseJson (String.mk (lbrace :: body)) = some v) :
    extractCandidate (pre ++ tick :: tick :: tick :: 'j' :: 's' :: 'o' :: 'n' :: '\n' ::
        (lbrace :: body ++ '\n' :: tick :: tick :: tick :: post)) = some (lbrace :: body) ∧
    extract_json_from_response (String.mk (pre ++ tick :: tick :: tick ::
        'j' :: 's' :: 'o' :: 'n' :: '\n' ::
        (lbrace :: body ++ '\n' :: tick :: tick :: tick :: post))) = some v := by
  have hsearch : regexSearch (pre ++ tick :: tick :: tick :: 'j' :: 's' :: 'o' :: 'n' :: '\n' ::
      (lbrace :: body ++ '\n' :: tick :: tick :: tick :: post)) = some (lbrace :: body) :=
    regexSearch_pre pre _ _ hpre (matchAt_fence body post hne hlast htick)
  have hcand : extractCandidate (pre ++ tick :: tick :: tick :: 'j' :: 's' :: 'o' :: 'n' :: '\n' ::
      (lbrace :: body ++ '\n' :: tick :: tick :: tick :: post)) = some (lbrace :: body) := by
    unfold extractCandidate
    rw [hsearch]
  refine ⟨hcand, ?_⟩
  show (match extractCandidate (pre ++ tick :: tick :: tick :: 'j' :: 's' :: 'o' :: 'n' :: '\n' ::
      (lbrace :: body ++ '\n' :: tick :: tick :: tick :: post)) with
    | none => none
    | some g => parseJson (String.mk g)) = some v
  rw [hcand]
  exact hparse

/-- Witness for C3 amended: prose around a `json` fence holding
`{"a": 1}` extracts and decodes to that object. -/
theorem fenced_extraction_amended_witness :
    extract_json_from_response (String.mk (("Okay: ").data ++ tick :: tick :: tick ::
        'j' :: 's' :: 'o' :: 'n' :: '\n' ::
        (lbrace :: ('"' :: 'a' :: '"' :: ':' :: ' ' :: '1' :: rbrace :: []) ++
          '\n' :: tick :: tick :: tick :: (" done").data))) =
      some (.obj [("a", .num "1")]) :=
  (fenced_extraction_amended ("Okay: ").data
    ('"' :: 'a' :: '"' :: ':' :: ' ' :: '1' :: rbrace :: []) (" done").data
    (.obj [("a", .num "1")]) (by decide) (by decide) (by decide) rfl rfl).2
